import Mathlib

/-!
Verification of the Expedition Ration Calculator core
(products → meals → days → menus aggregation, rule checking,
and bill-of-materials generation).

The Python source is shallowly embedded: dataclass `__post_init__`
bodies become explicit constructor functions returning `Except String`
when they can raise, floats become `ℚ`, Python `int` becomes `ℤ`,
and Python `dict` becomes an insertion-ordered association list with
the exact `dict.get` / item-assignment semantics.
-/

set_option autoImplicit false

namespace Ration

variable {κ : Type} {α : Type} [DecidableEq κ]

/-- Python `d.get(key)`: the value of the first (unique in a real dict)
entry with that key. -/
def alookup : List (κ × α) → κ → Option α
  | [], _ => none
  | (k, v) :: rest, key => if k = key then some v else alookup rest key

/-- Python `d.get(key, default)`. -/
def agetD (d : List (κ × α)) (k : κ) (v : α) : α :=
  (alookup d k).getD v

/-- Python `list(d.keys())`. -/
def akeys (d : List (κ × α)) : List κ :=
  d.map (fun kv => kv.1)

/-- Python item assignment `d[key] = value`: overwrite in place when the
key is already present, otherwise append the new entry at the end. -/
def ainsert (d : List (κ × α)) (k : κ) (v : α) : List (κ × α) :=
  if (alookup d k).isSome then
    d.map (fun kv => if kv.1 = k then (k, v) else kv)
  else
    d ++ [(k, v)]

/-- Python `d1 == d2` on dicts: same keys with the same values,
irrespective of insertion order (for genuine dicts, whose keys are
unique, this is exactly lookup extensionality). -/
def dictEqv (d1 d2 : List (κ × α)) : Prop :=
  ∀ k, alookup d1 k = alookup d2 k

end Ration

namespace Ration

/-- `products.py`: enumeration of product categories. -/
inductive ProductCategory where
  | WHATEVER
  | GRAINS
  | VEGETABLES
  | MEAT
  | MILK
  | DISPERSSED
  | DRINKABLE
  | SWEETS
  | NUTS
  | TOURIST_SHOP
  | SAUSAGE
deriving DecidableEq, Repr

/-- `products.py`: list of product groups in Russian for categorization. -/
def productGroups : List String :=
  ["Крупы", "Овощи", "Мясо и молочка", "Сладкое", "Сухофрукты и орехи", "Другое"]

/-- `products.py`: mapping from `ProductCategory` to Russian group names
(a Python dict keyed by the enum). -/
def productCategoryMap : List (ProductCategory × String) :=
  [(.WHATEVER, "Другое"),
   (.GRAINS, "Крупы"),
   (.VEGETABLES, "Овощи"),
   (.MEAT, "Мясо и молочка"),
   (.MILK, "Мясо и молочка"),
   (.DISPERSSED, "Другое"),
   (.DRINKABLE, "Другое"),
   (.SWEETS, "Сладкое"),
   (.NUTS, "Сухофрукты и орехи"),
   (.TOURIST_SHOP, "Другое"),
   (.SAUSAGE, "Другое")]

/-- `products.py`: the `Product` dataclass. Floats are embedded as `ℚ`,
`packageWeight` (a Python `int`, in grams) as `ℤ`. -/
structure Product where
  name : String
  calories : ℚ
  proteins : ℚ
  fats : ℚ
  carbohydrates : ℚ
  group : ProductCategory
  packageWeight : ℤ
  costPerPackage : ℚ
  percentage : ℚ
deriving DecidableEq, Repr

/-- `meals.py`: the `Meal` dataclass (fields after `__post_init__` ran). -/
structure Meal where
  name : String
  products : List (Product × ℚ)
  calories : ℚ
  proteins : ℚ
  fats : ℚ
  carbohydrates : ℚ
  weight : ℚ
deriving DecidableEq, Repr

/-- The loop body of `Meal.__post_init__`: walk the items, refuse a negative
quantity, and accumulate calories, proteins, fats, carbohydrates (per 100 g)
and weight (package weight × quantity, converted to kilograms) onto the
running values. -/
def mealAccum : List (Product × ℚ) → ℚ × ℚ × ℚ × ℚ × ℚ → Except String (ℚ × ℚ × ℚ × ℚ × ℚ)
  | [], acc => .ok acc
  | (product, quantity) :: rest, (c, p, f, ch, w) =>
    if quantity < 0 then
      .error ("Quantity for product " ++ product.name ++ " cannot be negative.")
    else
      mealAccum rest
        (c + product.calories * quantity / 100,
         p + product.proteins * quantity / 100,
         f + product.fats * quantity / 100,
         ch + product.carbohydrates * quantity / 100,
         w + (product.packageWeight : ℚ) * quantity / 1000)

/-- `meals.py`: constructing a `Meal`. The dataclass takes initial values for
the five derived fields (defaulting to `0.0` at call sites) and
`__post_init__` accumulates onto them; a negative quantity raises. -/
def mkMeal (name : String) (products : List (Product × ℚ))
    (calories proteins fats carbohydrates weight : ℚ) : Except String Meal :=
  match mealAccum products (calories, proteins, fats, carbohydrates, weight) with
  | .error e => .error e
  | .ok (c, p, f, ch, w) =>
    .ok { name := name, products := products, calories := c, proteins := p,
          fats := f, carbohydrates := ch, weight := w }

/-- `daily_norms.py` / `dailyNorms.py`: the `DailyNorms` dataclass fields. -/
structure DailyNorms where
  daily_calories_min : ℚ
  daily_calories_max : ℚ
  daily_protein : ℚ
  daily_fat : ℚ
  daily_carbs : ℚ
deriving DecidableEq, Repr

/-- `daily_norms.py`: constructing a `DailyNorms`; `__post_init__` rejects
negative norms and a calorie minimum above the maximum, in source order. -/
def mkDailyNorms (daily_calories_min daily_calories_max daily_protein
    daily_fat daily_carbs : ℚ) : Except String DailyNorms :=
  if daily_calories_min < 0 then .error "daily_calories_min cannot be negative."
  else if daily_calories_max < 0 then .error "daily_calories_max cannot be negative."
  else if daily_protein < 0 then .error "daily_protein cannot be negative."
  else if daily_fat < 0 then .error "daily_fat cannot be negative."
  else if daily_carbs < 0 then .error "daily_carbs cannot be negative."
  else if daily_calories_min > daily_calories_max then
    .error "daily_calories_min cannot be greater than daily_calories_max."
  else
    .ok { daily_calories_min := daily_calories_min,
          daily_calories_max := daily_calories_max,
          daily_protein := daily_protein,
          daily_fat := daily_fat,
          daily_carbs := daily_carbs }

/-- `dailyNorms.py` (the module `main.py` actually imports): its `DailyNorms`
dataclass has no `__post_init__`, so `load_daily_norms` there constructs the
record directly with no validation whatsoever. -/
def mkDailyNormsLegacy (daily_calories_min daily_calories_max daily_protein
    daily_fat daily_carbs : ℚ) : DailyNorms :=
  { daily_calories_min := daily_calories_min,
    daily_calories_max := daily_calories_max,
    daily_protein := daily_protein,
    daily_fat := daily_fat,
    daily_carbs := daily_carbs }

/-- `day.py`: the `Day` dataclass (fields after `__post_init__` ran). -/
structure Day where
  name : String
  breakfast : Meal
  lunch : Meal
  dinner : Meal
  everyday : Meal
  calories : ℚ
  proteins : ℚ
  fats : ℚ
  carbohydrates : ℚ
  weight : ℚ
  people_count : ℤ
deriving DecidableEq, Repr

/-- `day.py`: constructing a `Day`. `__post_init__` raises when
`people_count < 1` and then OVERWRITES (not accumulates) the five derived
fields with the sums over the four meals; the initial values passed for them
are therefore taken but discarded. -/
def mkDay (name : String) (breakfast lunch dinner everyday : Meal)
    (calories proteins fats carbohydrates weight : ℚ) (people_count : ℤ) :
    Except String Day :=
  if people_count < 1 then
    .error ("people_count must be at least 1 for day " ++ name ++ ".")
  else
    .ok { name := name, breakfast := breakfast, lunch := lunch, dinner := dinner,
          everyday := everyday,
          calories := breakfast.calories + lunch.calories + dinner.calories
            + everyday.calories,
          proteins := breakfast.proteins + lunch.proteins + dinner.proteins
            + everyday.proteins,
          fats := breakfast.fats + lunch.fats + dinner.fats + everyday.fats,
          carbohydrates := breakfast.carbohydrates + lunch.carbohydrates
            + dinner.carbohydrates + everyday.carbohydrates,
          weight := breakfast.weight + lunch.weight + dinner.weight
            + everyday.weight,
          people_count := people_count }

/-- `menus.py`, `load_menus`: `dataclasses.replace(original_day,
people_count=people_count)` re-invokes the dataclass constructor with all of
the original's init fields except the overridden `people_count`, so
`__post_init__` runs again (re-validating and recomputing the derived
fields) while the original `Day` is left untouched. -/
def Day.withPeopleCount (d : Day) (people_count : ℤ) : Except String Day :=
  mkDay d.name d.breakfast d.lunch d.dinner d.everyday
    d.calories d.proteins d.fats d.carbohydrates d.weight people_count

/-- Python float formatting `:.0f`: round to the nearest integer, ties to
even (banker's rounding), and print the integer. -/
def roundHalfEven (q : ℚ) : ℤ :=
  if q - ⌊q⌋ < 1/2 then ⌊q⌋
  else if 1/2 < q - ⌊q⌋ then ⌊q⌋ + 1
  else if 2 ∣ ⌊q⌋ then ⌊q⌋ else ⌊q⌋ + 1

/-- Rendering of `f"{x:.0f}"`. -/
def fmtF0 (q : ℚ) : String := toString (roundHalfEven q)

/-- `day.py`, `Day.check_rules`: appends one warning per violated norm, in
source order, to a running list that starts empty. -/
def Day.check_rules (d : Day) (rules : DailyNorms) : List String :=
  let warnings : List String := []
  let warnings := if d.calories < rules.daily_calories_min then
    warnings ++ [s!"Слишком мало калорий: {fmtF0 d.calories}, нужно ещё {fmtF0 (rules.daily_calories_min - d.calories)}"]
    else warnings
  let warnings := if d.calories > rules.daily_calories_max then
    warnings ++ [s!"Слишком много калорий: {fmtF0 d.calories}, избыток {fmtF0 (d.calories - rules.daily_calories_max)}"]
    else warnings
  let warnings := if d.proteins < rules.daily_protein then
    warnings ++ [s!"Слишком мало белков: {fmtF0 d.proteins}, нужно ещё {fmtF0 (rules.daily_protein - d.proteins)}"]
    else warnings
  let warnings := if d.fats < rules.daily_fat then
    warnings ++ [s!"Слишком мало жиров: {fmtF0 d.fats}, нужно ещё {fmtF0 (rules.daily_fat - d.fats)}"]
    else warnings
  let warnings := if d.carbohydrates < rules.daily_carbs then
    warnings ++ [s!"Слишком мало углеводов: {fmtF0 d.carbohydrates}, нужно ещё {fmtF0 (rules.daily_carbs - d.carbohydrates)}"]
    else warnings
  warnings

/-- `menus.py`: the `Menu` dataclass (fields after `__post_init__` ran). -/
structure Menu where
  name : String
  days : List Day
  default_people_count : ℤ
  calories : ℚ
  proteins : ℚ
  fats : ℚ
  carbohydrates : ℚ
  weight_per_person : ℚ
  total_weight : ℚ
deriving DecidableEq, Repr

/-- The loop body of `Menu.__post_init__`: accumulate each day's nutrition
and per-person weight, and `day.weight * day.people_count` into the total
weight. -/
def menuAccum : List Day → ℚ × ℚ × ℚ × ℚ × ℚ × ℚ → ℚ × ℚ × ℚ × ℚ × ℚ × ℚ
  | [], acc => acc
  | day :: rest, (c, p, f, ch, wpp, tw) =>
    menuAccum rest
      (c + day.calories, p + day.proteins, f + day.fats,
       ch + day.carbohydrates, wpp + day.weight,
       tw + day.weight * (day.people_count : ℚ))

/-- `menus.py`: constructing a `Menu`; the dataclass takes initial values for
the six derived fields (defaulting to `0.0`) and `__post_init__` accumulates
onto them. No validation is performed. -/
def mkMenu (name : String) (days : List Day) (default_people_count : ℤ)
    (calories proteins fats carbohydrates weight_per_person total_weight : ℚ) :
    Menu :=
  match menuAccum days
      (calories, proteins, fats, carbohydrates, weight_per_person, total_weight) with
  | (c, p, f, ch, wpp, tw) =>
    { name := name, days := days, default_people_count := default_people_count,
      calories := c, proteins := p, fats := f, carbohydrates := ch,
      weight_per_person := wpp, total_weight := tw }

/-- `menus.py` / `bom_generator.py`, `get_bom_for_menus` (both copies are
textually identical): for every menu, day, and each of the day's four meals,
add `quantity * day.people_count` to the running total keyed by the product's
name, via `bom[name] = bom.get(name, 0) + quantity * day.people_count`. -/
def get_bom_for_menus (menus : List Menu) : List (String × ℚ) :=
  menus.foldl (fun bom menu =>
    menu.days.foldl (fun bom day =>
      [day.breakfast, day.lunch, day.dinner, day.everyday].foldl (fun bom meal =>
        meal.products.foldl (fun bom pq =>
          ainsert bom pq.1.name
            (agetD bom pq.1.name 0 + pq.2 * (day.people_count : ℚ))) bom) bom) bom) []

/-- `menus.py` / `bom_generator.py`, `calculate_total_weight`: sum of the
menus' `total_weight` fields. -/
def calculate_total_weight (menus : List Menu) : ℚ :=
  menus.foldl (fun total menu => total + menu.total_weight) 0

/-- The loop body of `group_products_by_category`: look the product up in
the registry, silently skip the entry when it is absent (`continue`);
otherwise resolve its category through `productCategoryMap` (defaulting to
"Другое"), create the category's inner dict on first use (`grouped.get`
returning `[]`), and accumulate the quantity under the product's name. -/
def groupStep (products : List (String × Product))
    (grouped : List (String × List (String × ℚ))) (entry : String × ℚ) :
    List (String × List (String × ℚ)) :=
  match alookup products entry.1 with
  | none => grouped
  | some product =>
    let category := agetD productCategoryMap product.group "Другое"
    let inner := agetD grouped category []
    ainsert grouped category
      (ainsert inner entry.1 (agetD inner entry.1 0 + entry.2))

/-- `menus.py` / `bom_generator.py`, `group_products_by_category` (both
copies are textually identical): fold the loop body over the BOM entries,
starting from the empty dict. -/
def group_products_by_category (bom : List (String × ℚ))
    (products : List (String × Product)) : List (String × List (String × ℚ)) :=
  bom.foldl (groupStep products) []

/-- One flattened BOM update: `bom[name] = bom.get(name, 0) + amount`. -/
def bomStep (bom : List (String × ℚ)) (e : String × ℚ) : List (String × ℚ) :=
  ainsert bom e.1 (agetD bom e.1 0 + e.2)

/-- The `(product name, quantity * people_count)` contributions of one meal
eaten by `people_count` people, in iteration order. -/
def mealEntries (people_count : ℤ) (meal : Meal) : List (String × ℚ) :=
  meal.products.map (fun pq => (pq.1.name, pq.2 * (people_count : ℚ)))

/-- The contributions of one day: its four meals in the source's order. -/
def dayEntries (day : Day) : List (String × ℚ) :=
  ([day.breakfast, day.lunch, day.dinner, day.everyday]).flatMap
    (mealEntries day.people_count)

/-- The contributions of one menu: its days in order. -/
def menuEntries (menu : Menu) : List (String × ℚ) :=
  menu.days.flatMap dayEntries

/-- The contributions of a list of menus, in iteration order. -/
def allEntries (menus : List Menu) : List (String × ℚ) :=
  menus.flatMap menuEntries

/-- The sum of the amounts that a flat entry list contributes to one key. -/
def sumEntries (entries : List (String × ℚ)) (k : String) : ℚ :=
  ((entries.filter (fun e => e.1 = k)).map (fun e => e.2)).sum

/-- Written from the spec's words (the refinement side of the BOM claim):
"each product name is sent to the sum, over every menu in the list, every
day of that menu, each of that day's four meals (breakfast, lunch, dinner,
everyday), and every (product, quantity) item of that meal bearing that
product name, of quantity * day.people_count". -/
def bom_spec_value (menus : List Menu) (name : String) : ℚ :=
  (menus.map (fun menu =>
    (menu.days.map (fun day =>
      (([day.breakfast, day.lunch, day.dinner, day.everyday]).map (fun meal =>
        ((meal.products.filter (fun pq => pq.1.name = name)).map
          (fun pq => pq.2 * (day.people_count : ℚ))).sum)).sum)).sum)).sum

/-- Written from the spec's words: the entrywise-sum merge of two BOM dicts —
fold the second dict's entries into the first, accumulating quantities. -/
def mergeBom (b1 b2 : List (String × ℚ)) : List (String × ℚ) :=
  b2.foldl bomStep b1

/-- The contract `Day.__post_init__` establishes for every `Day` it lets
exist: each derived field is the sum of the four meals' corresponding
fields. -/
def Day.consistent (d : Day) : Prop :=
  d.calories = d.breakfast.calories + d.lunch.calories + d.dinner.calories
      + d.everyday.calories ∧
  d.proteins = d.breakfast.proteins + d.lunch.proteins + d.dinner.proteins
      + d.everyday.proteins ∧
  d.fats = d.breakfast.fats + d.lunch.fats + d.dinner.fats + d.everyday.fats ∧
  d.carbohydrates = d.breakfast.carbohydrates + d.lunch.carbohydrates
      + d.dinner.carbohydrates + d.everyday.carbohydrates ∧
  d.weight = d.breakfast.weight + d.lunch.weight + d.dinner.weight
      + d.everyday.weight

end Ration

namespace Ration

variable {κ : Type} {α : Type} [DecidableEq κ]

@[simp] theorem alookup_nil (k : κ) : alookup ([] : List (κ × α)) k = none := rfl

theorem alookup_cons (k0 : κ) (v0 : α) (rest : List (κ × α)) (k : κ) :
    alookup ((k0, v0) :: rest) k = if k0 = k then some v0 else alookup rest k := rfl

theorem alookup_isSome_iff_mem_keys (d : List (κ × α)) (k : κ) :
    (alookup d k).isSome = true ↔ k ∈ akeys d := by
  induction d with
  | nil => simp [akeys]
  | cons kv rest ih =>
    obtain ⟨k0, v0⟩ := kv
    by_cases h : k0 = k
    · subst h; simp [alookup_cons, akeys]
    · simp [alookup_cons, h, akeys] at ih ⊢
      exact ⟨fun hs => Or.inr (ih.mp hs), fun hm => ih.mpr (hm.resolve_left (fun e => h e.symm))⟩

theorem alookup_eq_none_iff (d : List (κ × α)) (k : κ) :
    alookup d k = none ↔ k ∉ akeys d := by
  rw [← alookup_isSome_iff_mem_keys]
  cases alookup d k <;> simp

theorem alookup_eq_getD_of_mem (d : List (κ × α)) (k : κ) (v : α) (h : k ∈ akeys d) :
    alookup d k = some (agetD d k v) := by
  rw [← alookup_isSome_iff_mem_keys] at h
  cases hl : alookup d k with
  | none => rw [hl] at h; simp at h
  | some w => simp [agetD, hl]

/-- Two dicts with the same key sets and the same `get`-with-default values
are Python-equal. -/
theorem dictEqv_of_keys_and_getD (d1 d2 : List (κ × α)) (v : α)
    (hk : ∀ k, k ∈ akeys d1 ↔ k ∈ akeys d2)
    (hv : ∀ k, agetD d1 k v = agetD d2 k v) : dictEqv d1 d2 := by
  intro k
  by_cases h : k ∈ akeys d1
  · rw [alookup_eq_getD_of_mem d1 k v h, alookup_eq_getD_of_mem d2 k v ((hk k).mp h), hv k]
  · rw [(alookup_eq_none_iff d1 k).mpr h,
      (alookup_eq_none_iff d2 k).mpr (fun hc => h ((hk k).mpr hc))]

theorem alookup_append (d1 d2 : List (κ × α)) (k : κ) :
    alookup (d1 ++ d2) k = (alookup d1 k).or (alookup d2 k) := by
  induction d1 with
  | nil => simp [alookup]
  | cons kv rest ih =>
    obtain ⟨k0, v0⟩ := kv
    by_cases h : k0 = k <;> simp [alookup_cons, h, ih]

theorem alookup_map_overwrite (d : List (κ × α)) (n : κ) (v : α) (k : κ) :
    alookup (d.map (fun kv => if kv.1 = n then (n, v) else kv)) k
      = if n = k then (alookup d n).map (fun _ => v) else alookup d k := by
  induction d with
  | nil => simp [alookup]
  | cons kv rest ih =>
    obtain ⟨k0, v0⟩ := kv
    by_cases h0 : k0 = n
    · subst h0
      by_cases hk : k0 = k
      · subst hk; simp [alookup_cons]
      · simp [alookup_cons, hk, ih]
    · by_cases hk : k0 = k
      · subst hk
        have hnk : ¬ n = k0 := fun e => h0 e.symm
        simp [alookup_cons, h0, hnk]
      · by_cases hn : n = k
        · subst hn; simp [alookup_cons, h0, hk, ih]
        · simp [alookup_cons, h0, hk, hn, ih]

/-- Lookup after a Python item assignment: the assigned key now maps to the
assigned value, every other key is untouched. -/
theorem alookup_ainsert (d : List (κ × α)) (n : κ) (v : α) (k : κ) :
    alookup (ainsert d n v) k = if n = k then some v else alookup d k := by
  unfold ainsert
  by_cases hp : (alookup d n).isSome
  · rw [if_pos hp, alookup_map_overwrite]
    by_cases hn : n = k
    · subst hn
      obtain ⟨w, hw⟩ := Option.isSome_iff_exists.mp hp
      simp [hw]
    · simp [hn]
  · rw [if_neg hp, alookup_append]
    have hnone : alookup d n = none := by
      cases h : alookup d n with
      | none => rfl
      | some w => rw [h] at hp; simp at hp
    by_cases hn : n = k
    · subst hn; simp [hnone, alookup_cons]
    · simp [alookup_cons, hn]

theorem agetD_ainsert (d : List (κ × α)) (n : κ) (v : α) (k : κ) (w : α) :
    agetD (ainsert d n v) k w = if n = k then v else agetD d k w := by
  unfold agetD
  rw [alookup_ainsert]
  by_cases hn : n = k <;> simp [hn]

theorem akeys_ainsert_present (d : List (κ × α)) (n : κ) (v : α)
    (h : (alookup d n).isSome) : akeys (ainsert d n v) = akeys d := by
  unfold ainsert
  rw [if_pos h]
  unfold akeys
  rw [List.map_map]
  refine List.map_congr_left (fun kv _ => ?_)
  by_cases hk : kv.1 = n <;> simp [hk]

theorem akeys_ainsert_absent (d : List (κ × α)) (n : κ) (v : α)
    (h : ¬ (alookup d n).isSome) : akeys (ainsert d n v) = akeys d ++ [n] := by
  unfold ainsert
  rw [if_neg h]
  simp [akeys]

theorem mem_akeys_ainsert (d : List (κ × α)) (n : κ) (v : α) (k : κ) :
    k ∈ akeys (ainsert d n v) ↔ k ∈ akeys d ∨ k = n := by
  by_cases h : (alookup d n).isSome
  · rw [akeys_ainsert_present d n v h]
    constructor
    · exact Or.inl
    · rintro (hm | rfl)
      · exact hm
      · exact (alookup_isSome_iff_mem_keys d k).mp h
  · rw [akeys_ainsert_absent d n v h]
    simp

theorem nodup_akeys_ainsert (d : List (κ × α)) (n : κ) (v : α)
    (h : (akeys d).Nodup) : (akeys (ainsert d n v)).Nodup := by
  by_cases hp : (alookup d n).isSome
  · rw [akeys_ainsert_present d n v hp]; exact h
  · rw [akeys_ainsert_absent d n v hp]
    have hnm : n ∉ akeys d := by
      intro hc
      exact hp ((alookup_isSome_iff_mem_keys d n).mpr hc)
    simp [List.nodup_append, h, hnm]

end Ration

namespace Ration

/-- If the `Meal.__post_init__` loop succeeds, the five accumulators came out
as initial value plus the per-field linear sum over the items. -/
theorem mealAccum_ok_eq (items : List (Product × ℚ)) :
    ∀ (c p f ch w : ℚ) (out : ℚ × ℚ × ℚ × ℚ × ℚ),
      mealAccum items (c, p, f, ch, w) = .ok out →
      out = (c + (items.map (fun pq => pq.1.calories * pq.2 / 100)).sum,
             p + (items.map (fun pq => pq.1.proteins * pq.2 / 100)).sum,
             f + (items.map (fun pq => pq.1.fats * pq.2 / 100)).sum,
             ch + (items.map (fun pq => pq.1.carbohydrates * pq.2 / 100)).sum,
             w + (items.map (fun pq => (pq.1.packageWeight : ℚ) * pq.2 / 1000)).sum) := by
  induction items with
  | nil =>
    intro c p f ch w out h
    simp [mealAccum] at h
    simp [← h]
  | cons pq rest ih =>
    intro c p f ch w out h
    obtain ⟨product, quantity⟩ := pq
    by_cases hq : quantity < 0
    · simp [mealAccum, hq] at h
    · rw [mealAccum, if_neg hq] at h
      have hout := ih _ _ _ _ _ _ h
      subst hout
      simp [add_assoc]

/-- The `Meal.__post_init__` loop succeeds on items with non-negative
quantities, accumulating each field's linear sum onto its initial value. -/
theorem mealAccum_ok_of_nonneg (items : List (Product × ℚ))
    (h : ∀ pq ∈ items, 0 ≤ pq.2) :
    ∀ (c p f ch w : ℚ),
      mealAccum items (c, p, f, ch, w)
        = .ok (c + (items.map (fun pq => pq.1.calories * pq.2 / 100)).sum,
               p + (items.map (fun pq => pq.1.proteins * pq.2 / 100)).sum,
               f + (items.map (fun pq => pq.1.fats * pq.2 / 100)).sum,
               ch + (items.map (fun pq => pq.1.carbohydrates * pq.2 / 100)).sum,
               w + (items.map (fun pq => (pq.1.packageWeight : ℚ) * pq.2 / 1000)).sum) := by
  induction items with
  | nil => intro c p f ch w; simp [mealAccum]
  | cons pq rest ih =>
    intro c p f ch w
    obtain ⟨product, quantity⟩ := pq
    have hq : ¬ quantity < 0 := not_lt.mpr (h (product, quantity) (List.mem_cons_self _ _))
    rw [mealAccum, if_neg hq, ih (fun x hx => h x (List.mem_cons_of_mem _ hx))]
    simp [add_assoc]

/-- A successfully constructed `Meal` records exactly the requested name and
items, and each derived field is its initial value plus the linear sum. -/
theorem mkMeal_ok_eq (name : String) (items : List (Product × ℚ))
    (c p f ch w : ℚ) (m : Meal) (h : mkMeal name items c p f ch w = .ok m) :
    m.name = name ∧ m.products = items ∧
    m.calories = c + (items.map (fun pq => pq.1.calories * pq.2 / 100)).sum ∧
    m.proteins = p + (items.map (fun pq => pq.1.proteins * pq.2 / 100)).sum ∧
    m.fats = f + (items.map (fun pq => pq.1.fats * pq.2 / 100)).sum ∧
    m.carbohydrates = ch + (items.map (fun pq => pq.1.carbohydrates * pq.2 / 100)).sum ∧
    m.weight = w + (items.map (fun pq => (pq.1.packageWeight : ℚ) * pq.2 / 1000)).sum := by
  unfold mkMeal at h
  cases hacc : mealAccum items (c, p, f, ch, w) with
  | error e => rw [hacc] at h; cases h
  | ok out =>
    rw [hacc] at h
    have hout := mealAccum_ok_eq items c p f ch w out hacc
    obtain ⟨oc, op, og, och, ow⟩ := out
    cases hout
    cases h
    exact ⟨rfl, rfl, rfl, rfl, rfl, rfl, rfl⟩

end Ration

namespace Ration

/-- A successfully constructed `Day` records the requested name, meals and
people count, and each derived field is overwritten with the sum of the four
meals' corresponding fields (the initial values are discarded). -/
theorem mkDay_ok_eq (name : String) (b l din e : Meal)
    (c p f ch w : ℚ) (pc : ℤ) (d : Day)
    (h : mkDay name b l din e c p f ch w pc = .ok d) :
    d.name = name ∧ d.breakfast = b ∧ d.lunch = l ∧ d.dinner = din ∧
    d.everyday = e ∧ d.people_count = pc ∧
    d.calories = b.calories + l.calories + din.calories + e.calories ∧
    d.proteins = b.proteins + l.proteins + din.proteins + e.proteins ∧
    d.fats = b.fats + l.fats + din.fats + e.fats ∧
    d.carbohydrates = b.carbohydrates + l.carbohydrates + din.carbohydrates
      + e.carbohydrates ∧
    d.weight = b.weight + l.weight + din.weight + e.weight := by
  unfold mkDay at h
  by_cases hpc : pc < 1
  · rw [if_pos hpc] at h; cases h
  · rw [if_neg hpc] at h
    cases h
    exact ⟨rfl, rfl, rfl, rfl, rfl, rfl, rfl, rfl, rfl, rfl, rfl⟩

/-- `mkDay` succeeds exactly when the people count is at least 1. -/
theorem mkDay_ok_iff (name : String) (b l din e : Meal)
    (c p f ch w : ℚ) (pc : ℤ) :
    (∃ d, mkDay name b l din e c p f ch w pc = .ok d) ↔ 1 ≤ pc := by
  unfold mkDay
  by_cases hpc : pc < 1
  · simp [if_pos hpc]
    omega
  · simp [if_neg hpc]
    omega

end Ration

namespace Ration

/-- C3, counterexample to the stated contribution: a product with
`packageWeight = 1000` and quantity `150` contributes
`1000 * 150 / 1000 = 150` to `meal.weight`, not `0.15` (= 3/20). -/
theorem meal_weight_claim_counterexample :
    ∃ m : Meal,
      mkMeal "m" [(⟨"плитка", 900, 10, 20, 30, .SWEETS, 1000, 0, 100⟩, 150)]
          0 0 0 0 0 = .ok m
      ∧ m.weight = 150 ∧ m.weight ≠ 3/20 := by
  unfold mkMeal
  rw [mealAccum_ok_of_nonneg _ (by decide)]
  refine ⟨_, rfl, ?_, ?_⟩
  · show (0:ℚ) + _ = 150
    norm_num
  · show (0:ℚ) + _ ≠ 3/20
    norm_num

/-- C3 (amended): for every `Meal`, the derived weight equals
`Σ product.packageWeight * quantity / 1000`, independently of the products'
nutrition values (the formula never reads them); an item with
`packageWeight = 1000` and quantity `150` contributes `150` — not `0.15` —
to `meal.weight`. -/
theorem meal_weight_package_formula :
    (∀ (name : String) (items : List (Product × ℚ)) (m : Meal),
        mkMeal name items 0 0 0 0 0 = .ok m →
        m.weight = (items.map (fun pq => (pq.1.packageWeight : ℚ) * pq.2 / 1000)).sum)
    ∧ (∀ (product : Product) (m : Meal), product.packageWeight = 1000 →
        mkMeal "m" [(product, 150)] 0 0 0 0 0 = .ok m → m.weight = 150) := by
  constructor
  · intro name items m h
    have hw := (mkMeal_ok_eq name items 0 0 0 0 0 m h).2.2.2.2.2.2
    simpa using hw
  · intro product m hpw h
    have hw := (mkMeal_ok_eq "m" [(product, 150)] 0 0 0 0 0 m h).2.2.2.2.2.2
    rw [hw]
    simp [hpw]

/-- Witness for C3's amended theorem at a concrete meal. -/
theorem meal_weight_package_formula_witness :
    ∃ m : Meal,
      mkMeal "m" [(⟨"крупа", 330, 12, 3, 62, .GRAINS, 1000, 0, 100⟩, 150)]
          0 0 0 0 0 = .ok m
      ∧ m.weight = ([((⟨"крупа", 330, 12, 3, 62, .GRAINS, 1000, 0, 100⟩ : Product),
            (150:ℚ))].map (fun pq => (pq.1.packageWeight : ℚ) * pq.2 / 1000)).sum
      ∧ m.weight = 150 := by
  refine ⟨_, rfl, meal_weight_package_formula.1 _ _ _ rfl,
    meal_weight_package_formula.2 _ _ rfl rfl⟩

end Ration

namespace Ration

/-- C6: a `Meal` built from an items list has calories equal to the exact
linear sum `Σ product.calories * quantity / 100` (and likewise, with the same
per-100-gram formula, proteins, fats and carbohydrates); no rounding is
applied, the values are exact rationals. Appending item lists adds their
contributions, so repeated `(product, quantity)` pairs are never merged and
each occurrence contributes independently. -/
theorem meal_nutrition_linear_sum :
    (∀ (name : String) (items : List (Product × ℚ)) (m : Meal),
        mkMeal name items 0 0 0 0 0 = .ok m →
        m.calories = (items.map (fun pq => pq.1.calories * pq.2 / 100)).sum ∧
        m.proteins = (items.map (fun pq => pq.1.proteins * pq.2 / 100)).sum ∧
        m.fats = (items.map (fun pq => pq.1.fats * pq.2 / 100)).sum ∧
        m.carbohydrates = (items.map (fun pq => pq.1.carbohydrates * pq.2 / 100)).sum)
    ∧ (∀ (n1 n2 n12 : String) (items1 items2 : List (Product × ℚ)) (m1 m2 m12 : Meal),
        mkMeal n1 items1 0 0 0 0 0 = .ok m1 →
        mkMeal n2 items2 0 0 0 0 0 = .ok m2 →
        mkMeal n12 (items1 ++ items2) 0 0 0 0 0 = .ok m12 →
        m12.calories = m1.calories + m2.calories ∧
        m12.proteins = m1.proteins + m2.proteins ∧
        m12.fats = m1.fats + m2.fats ∧
        m12.carbohydrates = m1.carbohydrates + m2.carbohydrates ∧
        m12.weight = m1.weight + m2.weight) := by
  constructor
  · intro name items m h
    have he := mkMeal_ok_eq name items 0 0 0 0 0 m h
    exact ⟨by simpa using he.2.2.1, by simpa using he.2.2.2.1,
      by simpa using he.2.2.2.2.1, by simpa using he.2.2.2.2.2.1⟩
  · intro n1 n2 n12 items1 items2 m1 m2 m12 h1 h2 h12
    have he1 := mkMeal_ok_eq n1 items1 0 0 0 0 0 m1 h1
    have he2 := mkMeal_ok_eq n2 items2 0 0 0 0 0 m2 h2
    have he12 := mkMeal_ok_eq n12 (items1 ++ items2) 0 0 0 0 0 m12 h12
    refine ⟨?_, ?_, ?_, ?_, ?_⟩ <;>
      simp [he1.2.2.1, he1.2.2.2.1, he1.2.2.2.2.1, he1.2.2.2.2.2.1,
        he1.2.2.2.2.2.2, he2.2.2.1, he2.2.2.2.1, he2.2.2.2.2.1,
        he2.2.2.2.2.2.1, he2.2.2.2.2.2.2, he12.2.2.1, he12.2.2.2.1,
        he12.2.2.2.2.1, he12.2.2.2.2.2.1, he12.2.2.2.2.2.2]
/-- `mkMeal` succeeds whenever all quantities are non-negative. -/
theorem mkMeal_exists_of_nonneg (name : String) (items : List (Product × ℚ))
    (c p f ch w : ℚ) (h : ∀ pq ∈ items, 0 ≤ pq.2) :
    ∃ m, mkMeal name items c p f ch w = .ok m :=
  ⟨_, by unfold mkMeal; rw [mealAccum_ok_of_nonneg items h]⟩

/-- Witness for C6 at a concrete meal with a repeated item. -/
theorem meal_nutrition_linear_sum_witness :
    ∃ m1 m12 : Meal,
      mkMeal "каша" [((⟨"овсянка", 350, 12, 6, 60, .GRAINS, 1000, 0, 100⟩ : Product),
          (150:ℚ))] 0 0 0 0 0 = .ok m1
      ∧ mkMeal "двойная каша"
          ([((⟨"овсянка", 350, 12, 6, 60, .GRAINS, 1000, 0, 100⟩ : Product), (150:ℚ))]
            ++ [((⟨"овсянка", 350, 12, 6, 60, .GRAINS, 1000, 0, 100⟩ : Product), (150:ℚ))])
          0 0 0 0 0 = .ok m12
      ∧ m1.calories = ([((⟨"овсянка", 350, 12, 6, 60, .GRAINS, 1000, 0, 100⟩ : Product),
          (150:ℚ))].map (fun pq => (pq.1).calories * pq.2 / 100)).sum
      ∧ m12.calories = m1.calories + m1.calories := by
  obtain ⟨m1, hm1⟩ := mkMeal_exists_of_nonneg "каша"
    [((⟨"овсянка", 350, 12, 6, 60, .GRAINS, 1000, 0, 100⟩ : Product), (150:ℚ))]
    0 0 0 0 0 (by decide)
  obtain ⟨m12, hm12⟩ := mkMeal_exists_of_nonneg "двойная каша"
    ([((⟨"овсянка", 350, 12, 6, 60, .GRAINS, 1000, 0, 100⟩ : Product), (150:ℚ))]
      ++ [((⟨"овсянка", 350, 12, 6, 60, .GRAINS, 1000, 0, 100⟩ : Product), (150:ℚ))])
    0 0 0 0 0 (by decide)
  exact ⟨m1, m12, hm1, hm12, (meal_nutrition_linear_sum.1 _ _ _ hm1).1,
    (meal_nutrition_linear_sum.2 _ _ _ _ _ _ _ _ hm1 hm1 hm12).1⟩

end Ration

namespace Ration

/-- C10: the `Meal` constructor accumulates each derived field onto the
supplied initial value (for non-negative quantities the construction
succeeds and yields initial value plus the linear sum); a `Meal` built from
an empty items list with zero initial values has all five derived fields
exactly `0`, and a `Day` built with such an empty everyday meal gets totals
that are exactly the three named meals' sums — the empty everyday meal adds
nothing. -/
theorem meal_accumulates_initial_values :
    (∀ (name : String) (items : List (Product × ℚ)) (c0 p0 f0 ch0 w0 : ℚ),
        (∀ pq ∈ items, 0 ≤ pq.2) →
        ∃ m : Meal, mkMeal name items c0 p0 f0 ch0 w0 = .ok m ∧
          m.calories = c0 + (items.map (fun pq => pq.1.calories * pq.2 / 100)).sum ∧
          m.proteins = p0 + (items.map (fun pq => pq.1.proteins * pq.2 / 100)).sum ∧
          m.fats = f0 + (items.map (fun pq => pq.1.fats * pq.2 / 100)).sum ∧
          m.carbohydrates = ch0 + (items.map (fun pq => pq.1.carbohydrates * pq.2 / 100)).sum ∧
          m.weight = w0 + (items.map (fun pq => (pq.1.packageWeight : ℚ) * pq.2 / 1000)).sum)
    ∧ (∀ name : String,
        mkMeal name [] 0 0 0 0 0 = .ok ⟨name, [], 0, 0, 0, 0, 0⟩)
    ∧ (∀ (en : String) (e : Meal), mkMeal en [] 0 0 0 0 0 = .ok e →
        ∀ (dn : String) (b l din : Meal) (c p f ch w : ℚ) (pc : ℤ) (d : Day),
          mkDay dn b l din e c p f ch w pc = .ok d →
          d.calories = b.calories + l.calories + din.calories ∧
          d.proteins = b.proteins + l.proteins + din.proteins ∧
          d.fats = b.fats + l.fats + din.fats ∧
          d.carbohydrates = b.carbohydrates + l.carbohydrates + din.carbohydrates ∧
          d.weight = b.weight + l.weight + din.weight) := by
  refine ⟨?_, ?_, ?_⟩
  · intro name items c0 p0 f0 ch0 w0 hnn
    obtain ⟨m, hm⟩ := mkMeal_exists_of_nonneg name items c0 p0 f0 ch0 w0 hnn
    have he := mkMeal_ok_eq name items c0 p0 f0 ch0 w0 m hm
    exact ⟨m, hm, he.2.2.1, he.2.2.2.1, he.2.2.2.2.1, he.2.2.2.2.2.1,
      he.2.2.2.2.2.2⟩
  · intro name; rfl
  · intro en e he dn b l din c p f ch w pc d hd
    have hee : e = ⟨en, [], 0, 0, 0, 0, 0⟩ := by
      have h2 : (Except.ok (⟨en, [], 0, 0, 0, 0, 0⟩ : Meal) : Except String Meal)
          = .ok e := by rw [← he]; exact rfl
      exact (Except.ok.inj h2).symm
    have hde := mkDay_ok_eq dn b l din e c p f ch w pc d hd
    subst hee
    refine ⟨?_, ?_, ?_, ?_, ?_⟩
    · have := hde.2.2.2.2.2.2.1; simpa using this
    · have := hde.2.2.2.2.2.2.2.1; simpa using this
    · have := hde.2.2.2.2.2.2.2.2.1; simpa using this
    · have := hde.2.2.2.2.2.2.2.2.2.1; simpa using this
    · have := hde.2.2.2.2.2.2.2.2.2.2; simpa using this

/-- Witness for C10: non-zero initial values are accumulated onto; the empty
meal is all-zero; a concrete day with an empty everyday meal totals exactly
its three named meals. -/
theorem meal_accumulates_initial_values_witness :
    (∃ m : Meal,
      mkMeal "м" [((⟨"сыр", 400, 25, 33, 0, .MILK, 1000, 0, 100⟩ : Product), (50:ℚ))]
          7 8 9 10 11 = .ok m ∧
      m.calories = 7 + ([((⟨"сыр", 400, 25, 33, 0, .MILK, 1000, 0, 100⟩ : Product),
        (50:ℚ))].map (fun pq => (pq.1).calories * pq.2 / 100)).sum ∧
      m.proteins = 8 + ([((⟨"сыр", 400, 25, 33, 0, .MILK, 1000, 0, 100⟩ : Product),
        (50:ℚ))].map (fun pq => (pq.1).proteins * pq.2 / 100)).sum ∧
      m.fats = 9 + ([((⟨"сыр", 400, 25, 33, 0, .MILK, 1000, 0, 100⟩ : Product),
        (50:ℚ))].map (fun pq => (pq.1).fats * pq.2 / 100)).sum ∧
      m.carbohydrates = 10 + ([((⟨"сыр", 400, 25, 33, 0, .MILK, 1000, 0, 100⟩ : Product),
        (50:ℚ))].map (fun pq => (pq.1).carbohydrates * pq.2 / 100)).sum ∧
      m.weight = 11 + ([((⟨"сыр", 400, 25, 33, 0, .MILK, 1000, 0, 100⟩ : Product),
        (50:ℚ))].map (fun pq => ((pq.1).packageWeight : ℚ) * pq.2 / 1000)).sum)
    ∧ mkMeal "пусто" [] 0 0 0 0 0 = .ok ⟨"пусто", [], 0, 0, 0, 0, 0⟩
    ∧ (∃ d : Day,
        mkDay "день" ⟨"з", [], 1, 2, 3, 4, 5⟩ ⟨"о", [], 10, 20, 30, 40, 50⟩
          ⟨"у", [], 100, 200, 300, 400, 500⟩ ⟨"пусто", [], 0, 0, 0, 0, 0⟩
          0 0 0 0 0 2 = .ok d ∧
        d.calories = (1:ℚ) + 10 + 100 ∧ d.weight = (5:ℚ) + 50 + 500) := by
  refine ⟨meal_accumulates_initial_values.1 "м"
      [((⟨"сыр", 400, 25, 33, 0, .MILK, 1000, 0, 100⟩ : Product), (50:ℚ))]
      7 8 9 10 11 (by decide),
    meal_accumulates_initial_values.2.1 "пусто", ⟨_, rfl, ?_, ?_⟩⟩
  · exact (meal_accumulates_initial_values.2.2 "пусто" ⟨"пусто", [], 0, 0, 0, 0, 0⟩
      rfl "день" ⟨"з", [], 1, 2, 3, 4, 5⟩ ⟨"о", [], 10, 20, 30, 40, 50⟩
      ⟨"у", [], 100, 200, 300, 400, 500⟩ 0 0 0 0 0 2 _ rfl).1
  · exact (meal_accumulates_initial_values.2.2 "пусто" ⟨"пусто", [], 0, 0, 0, 0, 0⟩
      rfl "день" ⟨"з", [], 1, 2, 3, 4, 5⟩ ⟨"о", [], 10, 20, 30, 40, 50⟩
      ⟨"у", [], 100, 200, 300, 400, 500⟩ 0 0 0 0 0 2 _ rfl).2.2.2.2

end Ration

namespace Ration

/-- Every `Day` that `mkDay` lets exist satisfies the `__post_init__`
contract. -/
theorem mkDay_consistent (name : String) (b l din e : Meal)
    (c p f ch w : ℚ) (pc : ℤ) (d : Day)
    (h : mkDay name b l din e c p f ch w pc = .ok d) : d.consistent := by
  have he := mkDay_ok_eq name b l din e c p f ch w pc d h
  obtain ⟨-, hb, hl, hdin, hev, -, hc, hp, hf, hch, hw⟩ := he
  exact ⟨by rw [hc, hb, hl, hdin, hev], by rw [hp, hb, hl, hdin, hev],
    by rw [hf, hb, hl, hdin, hev], by rw [hch, hb, hl, hdin, hev],
    by rw [hw, hb, hl, hdin, hev]⟩

/-- C7: re-scaling a `Day` to a positive people count `n` (the
`dataclasses.replace(original_day, people_count=n)` call used by
`load_menus`) succeeds and returns a new `Day` that shares the original's
four meal references and name, carries `people_count = n`, and whose derived
nutrition and weight figures equal the original's (they are per-person and
independent of the count). The original `Day` is a value the operation only
reads — `replace` builds a fresh object — so its own `people_count` and
derived fields are untouched by construction. -/
theorem withPeopleCount_rescale (d : Day) (n : ℤ) (hn : 1 ≤ n)
    (hc : Day.consistent d) :
    ∃ d2 : Day, d.withPeopleCount n = .ok d2 ∧
      d2.breakfast = d.breakfast ∧ d2.lunch = d.lunch ∧
      d2.dinner = d.dinner ∧ d2.everyday = d.everyday ∧
      d2.name = d.name ∧ d2.people_count = n ∧
      d2.calories = d.calories ∧ d2.proteins = d.proteins ∧
      d2.fats = d.fats ∧ d2.carbohydrates = d.carbohydrates ∧
      d2.weight = d.weight := by
  obtain ⟨hcc, hcp, hcf, hcch, hcw⟩ := hc
  unfold Day.withPeopleCount mkDay
  rw [if_neg (by omega)]
  exact ⟨_, rfl, rfl, rfl, rfl, rfl, rfl, rfl,
    hcc.symm, hcp.symm, hcf.symm, hcch.symm, hcw.symm⟩

/-- Witness for C7 at a concrete day, re-scaled from 2 to 5 people. -/
theorem withPeopleCount_rescale_witness :
    1 ≤ (5:ℤ)
    ∧ Day.consistent ⟨"д", ⟨"е", [], 0, 0, 0, 0, 0⟩, ⟨"е", [], 0, 0, 0, 0, 0⟩,
        ⟨"е", [], 0, 0, 0, 0, 0⟩, ⟨"е", [], 0, 0, 0, 0, 0⟩, 0, 0, 0, 0, 0, 2⟩
    ∧ (∃ d2 : Day,
        Day.withPeopleCount ⟨"д", ⟨"е", [], 0, 0, 0, 0, 0⟩, ⟨"е", [], 0, 0, 0, 0, 0⟩,
            ⟨"е", [], 0, 0, 0, 0, 0⟩, ⟨"е", [], 0, 0, 0, 0, 0⟩, 0, 0, 0, 0, 0, 2⟩ 5
          = .ok d2
        ∧ d2.breakfast = ⟨"е", [], 0, 0, 0, 0, 0⟩ ∧ d2.lunch = ⟨"е", [], 0, 0, 0, 0, 0⟩
        ∧ d2.dinner = ⟨"е", [], 0, 0, 0, 0, 0⟩ ∧ d2.everyday = ⟨"е", [], 0, 0, 0, 0, 0⟩
        ∧ d2.name = "д" ∧ d2.people_count = 5
        ∧ d2.calories = 0 ∧ d2.proteins = 0 ∧ d2.fats = 0
        ∧ d2.carbohydrates = 0 ∧ d2.weight = 0) :=
  ⟨by decide, by simp [Day.consistent],
    withPeopleCount_rescale _ 5 (by decide) (by simp [Day.consistent])⟩

end Ration

namespace Ration

/-- C5: `check_rules` returns the empty list exactly when all five norm
conditions hold, and in general returns one message per violated condition,
in the fixed source order (calories-low, calories-high, protein, fat,
carbs), each check firing independently of the others and each message
carrying the exact shortfall or overage amount. -/
theorem check_rules_characterization (d : Day) (rules : DailyNorms) :
    (d.check_rules rules = [] ↔
      (rules.daily_calories_min ≤ d.calories ∧
       d.calories ≤ rules.daily_calories_max ∧
       rules.daily_protein ≤ d.proteins ∧
       rules.daily_fat ≤ d.fats ∧
       rules.daily_carbs ≤ d.carbohydrates))
    ∧ d.check_rules rules =
        (if d.calories < rules.daily_calories_min then
          [s!"Слишком мало калорий: {fmtF0 d.calories}, нужно ещё {fmtF0 (rules.daily_calories_min - d.calories)}"]
          else [])
        ++ (if d.calories > rules.daily_calories_max then
          [s!"Слишком много калорий: {fmtF0 d.calories}, избыток {fmtF0 (d.calories - rules.daily_calories_max)}"]
          else [])
        ++ (if d.proteins < rules.daily_protein then
          [s!"Слишком мало белков: {fmtF0 d.proteins}, нужно ещё {fmtF0 (rules.daily_protein - d.proteins)}"]
          else [])
        ++ (if d.fats < rules.daily_fat then
          [s!"Слишком мало жиров: {fmtF0 d.fats}, нужно ещё {fmtF0 (rules.daily_fat - d.fats)}"]
          else [])
        ++ (if d.carbohydrates < rules.daily_carbs then
          [s!"Слишком мало углеводов: {fmtF0 d.carbohydrates}, нужно ещё {fmtF0 (rules.daily_carbs - d.carbohydrates)}"]
          else []) := by
  constructor
  · unfold Day.check_rules
    split_ifs <;> simp_all <;> omega
  · unfold Day.check_rules
    split_ifs <;> simp

end Ration

namespace Ration

/-- C8: the validated `DailyNorms` (`daily_norms.py`) rejects a calorie
minimum above the maximum with the documented `ValueError`; but the
`dailyNorms.py` module — the one `main.py` imports — constructs the record
with no validation at all, so a `DailyNorms` with
`daily_calories_min > daily_calories_max` exists after that load path. -/
theorem daily_norms_min_above_max_survives_legacy_load :
    (mkDailyNormsLegacy 3000 2000 55 60 290).daily_calories_min
        > (mkDailyNormsLegacy 3000 2000 55 60 290).daily_calories_max
    ∧ mkDailyNorms 3000 2000 55 60 290
        = .error "daily_calories_min cannot be greater than daily_calories_max." := by
  constructor
  · show (3000:ℚ) > 2000
    norm_num
  · unfold mkDailyNorms
    rw [if_neg (by norm_num), if_neg (by norm_num), if_neg (by norm_num),
      if_neg (by norm_num), if_neg (by norm_num), if_pos (by norm_num)]

end Ration

namespace Ration

/-- The `Menu.__post_init__` loop accumulates, onto each initial value, the
days' nutrition sums, the per-person weight sum, and the per-day
`weight * people_count` sum. -/
theorem menuAccum_eq (days : List Day) :
    ∀ (c p f ch wpp tw : ℚ),
      menuAccum days (c, p, f, ch, wpp, tw)
        = (c + (days.map (fun day => day.calories)).sum,
           p + (days.map (fun day => day.proteins)).sum,
           f + (days.map (fun day => day.fats)).sum,
           ch + (days.map (fun day => day.carbohydrates)).sum,
           wpp + (days.map (fun day => day.weight)).sum,
           tw + (days.map (fun day => day.weight * (day.people_count : ℚ))).sum) := by
  induction days with
  | nil => intro c p f ch wpp tw; simp [menuAccum]
  | cons day rest ih =>
    intro c p f ch wpp tw
    rw [menuAccum, ih]
    simp [add_assoc]

/-- `mkMenu` in closed form. -/
theorem mkMenu_fields (name : String) (days : List Day) (dpc : ℤ)
    (c p f ch wpp tw : ℚ) :
    mkMenu name days dpc c p f ch wpp tw
      = ⟨name, days, dpc,
         c + (days.map (fun day => day.calories)).sum,
         p + (days.map (fun day => day.proteins)).sum,
         f + (days.map (fun day => day.fats)).sum,
         ch + (days.map (fun day => day.carbohydrates)).sum,
         wpp + (days.map (fun day => day.weight)).sum,
         tw + (days.map (fun day => day.weight * (day.people_count : ℚ))).sum⟩ := by
  unfold mkMenu
  rw [menuAccum_eq]

/-- C2: a `Menu` built from a list of `Day`s (with the dataclass's zero
initial values) has `total_weight = Σ day.weight * day.people_count`, each
day scaled by its own consumer count, while `weight_per_person` is the
unscaled `Σ day.weight`; and for a concrete menu whose two days carry
people counts 1 and 3 (weight 1 each), the total `4` differs from
`weight_per_person * c` for every menu-wide constant `c` drawn from the
days' people counts or the menu's default people count. -/
theorem menu_total_weight_per_day_scaling :
    (∀ (name : String) (days : List Day) (dpc : ℤ),
        (mkMenu name days dpc 0 0 0 0 0 0).total_weight
          = (days.map (fun day => day.weight * (day.people_count : ℚ))).sum
        ∧ (mkMenu name days dpc 0 0 0 0 0 0).weight_per_person
          = (days.map (fun day => day.weight)).sum)
    ∧ ((mkMenu "м" [⟨"д1", ⟨"м1", [((⟨"вода", 0, 0, 0, 0, .WHATEVER, 1000, 0, 100⟩ : Product), 1)], 0, 0, 0, 0, 1⟩,
          ⟨"е", [], 0, 0, 0, 0, 0⟩, ⟨"е", [], 0, 0, 0, 0, 0⟩, ⟨"е", [], 0, 0, 0, 0, 0⟩,
          0, 0, 0, 0, 1, 1⟩,
        ⟨"д2", ⟨"м1", [((⟨"вода", 0, 0, 0, 0, .WHATEVER, 1000, 0, 100⟩ : Product), 1)], 0, 0, 0, 0, 1⟩,
          ⟨"е", [], 0, 0, 0, 0, 0⟩, ⟨"е", [], 0, 0, 0, 0, 0⟩, ⟨"е", [], 0, 0, 0, 0, 0⟩,
          0, 0, 0, 0, 1, 3⟩] 1 0 0 0 0 0 0).total_weight = 4
      ∧ (mkMenu "м" [⟨"д1", ⟨"м1", [((⟨"вода", 0, 0, 0, 0, .WHATEVER, 1000, 0, 100⟩ : Product), 1)], 0, 0, 0, 0, 1⟩,
          ⟨"е", [], 0, 0, 0, 0, 0⟩, ⟨"е", [], 0, 0, 0, 0, 0⟩, ⟨"е", [], 0, 0, 0, 0, 0⟩,
          0, 0, 0, 0, 1, 1⟩,
        ⟨"д2", ⟨"м1", [((⟨"вода", 0, 0, 0, 0, .WHATEVER, 1000, 0, 100⟩ : Product), 1)], 0, 0, 0, 0, 1⟩,
          ⟨"е", [], 0, 0, 0, 0, 0⟩, ⟨"е", [], 0, 0, 0, 0, 0⟩, ⟨"е", [], 0, 0, 0, 0, 0⟩,
          0, 0, 0, 0, 1, 3⟩] 1 0 0 0 0 0 0).weight_per_person = 2
      ∧ (1:ℤ) ≠ 3
      ∧ (4:ℚ) ≠ 2 * ((1:ℤ) : ℚ)
      ∧ (4:ℚ) ≠ 2 * ((3:ℤ) : ℚ)) := by
  constructor
  · intro name days dpc
    rw [mkMenu_fields]
    constructor <;> simp
  · rw [mkMenu_fields]
    refine ⟨?_, ?_, by decide, by norm_num, by norm_num⟩
    · show (0:ℚ) + (1 * ((1:ℤ) : ℚ) + (1 * ((3:ℤ) : ℚ) + 0)) = 4
      norm_num
    · show (0:ℚ) + (1 + (1 + 0)) = 2
      norm_num

end Ration

namespace Ration

/-- Transport a fold whose step processes a block of entries into a flat
fold of `bomStep` over the concatenated entries. -/
theorem foldl_hom_flatMap {β : Type}
    (step : List (String × ℚ) → β → List (String × ℚ))
    (f : β → List (String × ℚ))
    (hstep : ∀ bom x, step bom x = (f x).foldl bomStep bom) (l : List β) :
    ∀ bom, l.foldl step bom = (l.flatMap f).foldl bomStep bom := by
  induction l with
  | nil => intro bom; rfl
  | cons x xs ih =>
    intro bom
    rw [List.foldl_cons, List.flatMap_cons, List.foldl_append, hstep, ih]

/-- The innermost BOM loop over one meal's items is the flat fold over that
meal's `(name, quantity * people_count)` entries. -/
theorem foldl_meal_level (pc : ℤ) (products : List (Product × ℚ)) :
    ∀ bom, products.foldl (fun bom pq =>
        ainsert bom pq.1.name (agetD bom pq.1.name 0 + pq.2 * (pc : ℚ))) bom
      = (products.map (fun pq => (pq.1.name, pq.2 * (pc : ℚ)))).foldl bomStep bom := by
  induction products with
  | nil => intro bom; rfl
  | cons pq rest ih =>
    intro bom
    rw [List.foldl_cons, List.map_cons, List.foldl_cons, ih]
    rfl

/-- `get_bom_for_menus` is the flat fold of `bomStep` over all contributed
entries, starting from the empty dict. -/
theorem get_bom_eq_foldl (menus : List Menu) :
    get_bom_for_menus menus = (allEntries menus).foldl bomStep [] := by
  have hmeal : ∀ (pc : ℤ) (bom : List (String × ℚ)) (meal : Meal),
      meal.products.foldl (fun bom pq =>
          ainsert bom pq.1.name (agetD bom pq.1.name 0 + pq.2 * (pc : ℚ))) bom
        = (mealEntries pc meal).foldl bomStep bom := by
    intro pc bom meal
    exact foldl_meal_level pc meal.products bom
  have hday : ∀ (bom : List (String × ℚ)) (day : Day),
      [day.breakfast, day.lunch, day.dinner, day.everyday].foldl (fun bom meal =>
          meal.products.foldl (fun bom pq =>
            ainsert bom pq.1.name
              (agetD bom pq.1.name 0 + pq.2 * (day.people_count : ℚ))) bom) bom
        = (dayEntries day).foldl bomStep bom := by
    intro bom day
    exact foldl_hom_flatMap _ _ (fun bom meal => hmeal day.people_count bom meal)
      [day.breakfast, day.lunch, day.dinner, day.everyday] bom
  have hmenu : ∀ (bom : List (String × ℚ)) (menu : Menu),
      menu.days.foldl (fun bom day =>
          [day.breakfast, day.lunch, day.dinner, day.everyday].foldl (fun bom meal =>
            meal.products.foldl (fun bom pq =>
              ainsert bom pq.1.name
                (agetD bom pq.1.name 0 + pq.2 * (day.people_count : ℚ))) bom) bom) bom
        = (menuEntries menu).foldl bomStep bom := by
    intro bom menu
    exact foldl_hom_flatMap _ _ (fun bom day => hday bom day) menu.days bom
  exact foldl_hom_flatMap _ _ (fun bom menu => hmenu bom menu) menus []

@[simp] theorem sumEntries_nil (k : String) : sumEntries [] k = 0 := rfl

theorem sumEntries_cons (e : String × ℚ) (rest : List (String × ℚ)) (k : String) :
    sumEntries (e :: rest) k = (if e.1 = k then e.2 else 0) + sumEntries rest k := by
  unfold sumEntries
  rw [List.filter_cons]
  by_cases h : e.1 = k <;> simp [h]

theorem sumEntries_append (l1 l2 : List (String × ℚ)) (k : String) :
    sumEntries (l1 ++ l2) k = sumEntries l1 k + sumEntries l2 k := by
  unfold sumEntries
  rw [List.filter_append, List.map_append, List.sum_append]

theorem agetD_bomStep (bom : List (String × ℚ)) (e : String × ℚ) (k : String) :
    agetD (bomStep bom e) k 0 = agetD bom k 0 + (if e.1 = k then e.2 else 0) := by
  unfold bomStep
  rw [agetD_ainsert]
  by_cases h : e.1 = k <;> simp [h]

/-- The running-total invariant of the BOM fold: the value at each key grows
by exactly that key's share of the processed entries. -/
theorem agetD_foldl_bomStep (entries : List (String × ℚ)) :
    ∀ (bom : List (String × ℚ)) (k : String),
      agetD (entries.foldl bomStep bom) k 0 = agetD bom k 0 + sumEntries entries k := by
  induction entries with
  | nil => intro bom k; simp
  | cons e rest ih =>
    intro bom k
    rw [List.foldl_cons, ih, agetD_bomStep, sumEntries_cons, add_assoc]

theorem mem_akeys_foldl_bomStep (entries : List (String × ℚ)) :
    ∀ (bom : List (String × ℚ)) (k : String),
      k ∈ akeys (entries.foldl bomStep bom) ↔
        k ∈ akeys bom ∨ k ∈ entries.map (fun e => e.1) := by
  induction entries with
  | nil => intro bom k; simp
  | cons e rest ih =>
    intro bom k
    rw [List.foldl_cons, ih]
    unfold bomStep
    rw [mem_akeys_ainsert]
    simp [or_assoc, or_comm, or_left_comm, eq_comm]

theorem nodup_akeys_foldl_bomStep (entries : List (String × ℚ)) :
    ∀ (bom : List (String × ℚ)), (akeys bom).Nodup →
      (akeys (entries.foldl bomStep bom)).Nodup := by
  induction entries with
  | nil => intro bom h; exact h
  | cons e rest ih =>
    intro bom h
    rw [List.foldl_cons]
    exact ih _ (nodup_akeys_ainsert _ _ _ h)

theorem sumEntries_eq_zero_of_not_mem (d : List (String × ℚ)) (k : String)
    (h : k ∉ akeys d) : sumEntries d k = 0 := by
  induction d with
  | nil => rfl
  | cons e rest ih =>
    rw [sumEntries_cons]
    have hk : ¬ e.1 = k := by
      intro he
      exact h (by simp [akeys, he])
    rw [if_neg hk, ih (fun hm => h (by simp [akeys] at hm ⊢; exact Or.inr hm))]
    simp

/-- On a genuine dict (no duplicate keys) the per-key entry sum is just the
stored value. -/
theorem sumEntries_eq_agetD_of_nodup (d : List (String × ℚ)) (k : String)
    (h : (akeys d).Nodup) : sumEntries d k = agetD d k 0 := by
  induction d with
  | nil => rfl
  | cons e rest ih =>
    obtain ⟨k0, v0⟩ := e
    have hn : k0 ∉ akeys rest := by
      intro hm
      exact (List.nodup_cons.mp (by simpa [akeys] using h)).1 hm
    by_cases hk : k0 = k
    · subst hk
      rw [sumEntries_cons, if_pos rfl, sumEntries_eq_zero_of_not_mem rest k0 hn]
      simp [agetD, alookup_cons]
    · rw [sumEntries_cons, if_neg hk,
        ih (List.nodup_cons.mp (by simpa [akeys] using h)).2]
      simp [agetD, alookup_cons, hk]

theorem sumEntries_flatMap {β : Type} (f : β → List (String × ℚ))
    (l : List β) (k : String) :
    sumEntries (l.flatMap f) k = (l.map (fun x => sumEntries (f x) k)).sum := by
  induction l with
  | nil => rfl
  | cons x xs ih =>
    rw [List.flatMap_cons, sumEntries_append, List.map_cons, List.sum_cons, ih]

theorem sumEntries_mealEntries (pc : ℤ) (meal : Meal) (name : String) :
    sumEntries (mealEntries pc meal) name
      = ((meal.products.filter (fun pq => pq.1.name = name)).map
          (fun pq => pq.2 * (pc : ℚ))).sum := by
  unfold mealEntries sumEntries
  rw [List.filter_map, List.map_map]
  rfl

/-- The spec's nested-sum BOM value is the per-key share of the flattened
entry list. -/
theorem sumEntries_allEntries (menus : List Menu) (name : String) :
    sumEntries (allEntries menus) name = bom_spec_value menus name := by
  unfold allEntries bom_spec_value
  rw [sumEntries_flatMap]
  refine congrArg List.sum (List.map_congr_left fun menu _ => ?_)
  unfold menuEntries
  rw [sumEntries_flatMap]
  refine congrArg List.sum (List.map_congr_left fun day _ => ?_)
  unfold dayEntries
  rw [sumEntries_flatMap]
  exact congrArg List.sum (List.map_congr_left fun meal _ =>
    sumEntries_mealEntries day.people_count meal name)

end Ration

namespace Ration

/-- C1: `get_bom_for_menus` sends each product name to the sum, over every
menu, every day, each of the day's four meals, and every matching
(product, quantity) item, of `quantity * day.people_count`; a name is a key
of the result exactly when it occurs in some meal of some day of some menu;
and consequently the reduction is commutative and associative: the BOM of
`[A, B]` Python-equals the BOM of `[B, A]` and the entrywise-sum merge of
the BOMs of `[A]` and `[B]`. -/
theorem get_bom_for_menus_correct :
    (∀ (menus : List Menu) (name : String),
        agetD (get_bom_for_menus menus) name 0 = bom_spec_value menus name)
    ∧ (∀ (menus : List Menu) (name : String),
        name ∈ akeys (get_bom_for_menus menus) ↔
          ∃ menu ∈ menus, ∃ day ∈ menu.days,
            ∃ meal ∈ [day.breakfast, day.lunch, day.dinner, day.everyday],
              ∃ pq ∈ meal.products, pq.1.name = name)
    ∧ (∀ A B : Menu,
        dictEqv (get_bom_for_menus [A, B]) (get_bom_for_menus [B, A]))
    ∧ (∀ A B : Menu,
        dictEqv (get_bom_for_menus [A, B])
          (mergeBom (get_bom_for_menus [A]) (get_bom_for_menus [B]))) := by
  have hval : ∀ (menus : List Menu) (name : String),
      agetD (get_bom_for_menus menus) name 0 = bom_spec_value menus name := by
    intro menus name
    rw [get_bom_eq_foldl, agetD_foldl_bomStep, sumEntries_allEntries]
    simp [agetD]
  have hkeys : ∀ (menus : List Menu) (name : String),
      name ∈ akeys (get_bom_for_menus menus) ↔
        name ∈ (allEntries menus).map (fun e => e.1) := by
    intro menus name
    rw [get_bom_eq_foldl, mem_akeys_foldl_bomStep]
    simp [akeys]
  refine ⟨hval, ?_, ?_, ?_⟩
  · intro menus name
    rw [hkeys]
    simp only [allEntries, menuEntries, dayEntries, mealEntries, List.mem_map,
      List.mem_flatMap]
    constructor
    · rintro ⟨e, ⟨menu, hmenu, day, hday, meal, hmeal, pq, hpq, rfl⟩, rfl⟩
      exact ⟨menu, hmenu, day, hday, meal, hmeal, pq, hpq, rfl⟩
    · rintro ⟨menu, hmenu, day, hday, meal, hmeal, pq, hpq, rfl⟩
      exact ⟨_, ⟨menu, hmenu, day, hday, meal, hmeal, pq, hpq, rfl⟩, rfl⟩
  · intro A B
    refine dictEqv_of_keys_and_getD _ _ 0 ?_ ?_
    · intro k
      rw [hkeys, hkeys]
      simp only [allEntries, List.flatMap_cons, List.flatMap_nil, List.append_nil,
        List.map_append, List.mem_append]
      exact or_comm
    · intro k
      rw [hval, hval]
      unfold bom_spec_value
      simp only [List.map_cons, List.map_nil, List.sum_cons, List.sum_nil, add_zero]
      exact add_comm _ _
  · intro A B
    refine dictEqv_of_keys_and_getD _ _ 0 ?_ ?_
    · intro k
      unfold mergeBom
      rw [hkeys, mem_akeys_foldl_bomStep]
      rw [show ((get_bom_for_menus [B]).map (fun e => e.1))
            = akeys (get_bom_for_menus [B]) from rfl]
      rw [hkeys, hkeys]
      simp only [allEntries, List.flatMap_cons, List.flatMap_nil, List.append_nil,
        List.map_append, List.mem_append]
    · intro k
      unfold mergeBom
      rw [agetD_foldl_bomStep, hval,
        sumEntries_eq_agetD_of_nodup _ _
          (by rw [get_bom_eq_foldl]; exact nodup_akeys_foldl_bomStep _ [] List.nodup_nil),
        hval, hval]
      unfold bom_spec_value
      simp only [List.map_cons, List.map_nil, List.sum_cons, List.sum_nil, add_zero]

end Ration

namespace Ration

/-- Category keys of the grouping fold: a category is present exactly when
the initial dict had it or some processed BOM entry resolves to it. -/
theorem mem_akeys_groupStep_fold (products : List (String × Product))
    (bom : List (String × ℚ)) :
    ∀ (g : List (String × List (String × ℚ))) (cat : String),
      cat ∈ akeys (bom.foldl (groupStep products) g) ↔
        cat ∈ akeys g ∨ ∃ e ∈ bom, ∃ p, alookup products e.1 = some p ∧
          agetD productCategoryMap p.group "Другое" = cat := by
  induction bom with
  | nil => intro g cat; simp
  | cons e rest ih =>
    intro g cat
    rw [List.foldl_cons, ih]
    cases hl : alookup products e.1 with
    | none =>
      unfold groupStep
      rw [hl]
      simp only [List.mem_cons]
      constructor
      · rintro (h | h)
        · exact Or.inl h
        · obtain ⟨e2, he2, hp⟩ := h
          exact Or.inr ⟨e2, Or.inr he2, hp⟩
      · rintro (h | ⟨e2, (rfl | he2), hp⟩)
        · exact Or.inl h
        · obtain ⟨p, hp1, -⟩ := hp
          rw [hl] at hp1
          cases hp1
        · exact Or.inr ⟨e2, he2, hp⟩
    | some p =>
      unfold groupStep
      rw [hl]
      rw [mem_akeys_ainsert]
      simp only [List.mem_cons]
      constructor
      · rintro ((h | rfl) | h)
        · exact Or.inl h
        · exact Or.inr ⟨e, Or.inl rfl, p, hl, rfl⟩
        · obtain ⟨e2, he2, hp⟩ := h
          exact Or.inr ⟨e2, Or.inr he2, hp⟩
      · rintro (h | ⟨e2, (rfl | he2), p2, hp2, hcat⟩)
        · exact Or.inl (Or.inl h)
        · rw [hl] at hp2
          cases hp2
          exact Or.inl (Or.inr hcat.symm)
        · exact Or.inr ⟨e2, he2, p2, hp2, hcat⟩

/-- Product names inside the grouping fold's inner dicts: a name appears
under a category exactly when it already did in the initial dict or some
processed BOM entry with that name resolves to a product of that
category. -/
theorem mem_inner_groupStep_fold (products : List (String × Product))
    (bom : List (String × ℚ)) :
    ∀ (g : List (String × List (String × ℚ))) (cat : String) (name : String),
      name ∈ akeys (agetD (bom.foldl (groupStep products) g) cat []) ↔
        name ∈ akeys (agetD g cat []) ∨
          ∃ q, (name, q) ∈ bom ∧ ∃ p, alookup products name = some p ∧
            agetD productCategoryMap p.group "Другое" = cat := by
  induction bom with
  | nil => intro g cat name; simp
  | cons e rest ih =>
    intro g cat name
    rw [List.foldl_cons, ih]
    cases hl : alookup products e.1 with
    | none =>
      unfold groupStep
      rw [hl]
      simp only [List.mem_cons]
      constructor
      · rintro (h | ⟨q, hq, hp⟩)
        · exact Or.inl h
        · exact Or.inr ⟨q, Or.inr hq, hp⟩
      · rintro (h | ⟨q, (heq | hq), hp⟩)
        · exact Or.inl h
        · obtain ⟨p, hp1, -⟩ := hp
          have : name = e.1 := by
            have := congrArg Prod.fst heq
            simpa using this
          rw [this, hl] at hp1
          cases hp1
        · exact Or.inr ⟨q, hq, hp⟩
    | some p =>
      unfold groupStep
      rw [hl]
      by_cases hcat : agetD productCategoryMap p.group "Другое" = cat
      · rw [show agetD (ainsert g (agetD productCategoryMap p.group "Другое")
              (ainsert (agetD g (agetD productCategoryMap p.group "Другое") [])
                e.1 (agetD (agetD g (agetD productCategoryMap p.group "Другое") [])
                  e.1 0 + e.2))) cat []
            = ainsert (agetD g cat [])
                e.1 (agetD (agetD g (agetD productCategoryMap p.group "Другое") [])
                  e.1 0 + e.2) from by
          rw [agetD_ainsert, if_pos hcat, hcat]]
        rw [mem_akeys_ainsert]
        simp only [List.mem_cons]
        constructor
        · rintro ((h | rfl) | ⟨q, hq, hp⟩)
          · exact Or.inl h
          · exact Or.inr ⟨e.2, Or.inl rfl, p, hl, hcat⟩
          · exact Or.inr ⟨q, Or.inr hq, hp⟩
        · rintro (h | ⟨q, (heq | hq), hp⟩)
          · exact Or.inl (Or.inl h)
          · have hne : name = e.1 := by
              have := congrArg Prod.fst heq
              simpa using this
            exact Or.inl (Or.inr hne)
          · exact Or.inr ⟨q, hq, hp⟩
      · rw [show agetD (ainsert g (agetD productCategoryMap p.group "Другое")
              (ainsert (agetD g (agetD productCategoryMap p.group "Другое") [])
                e.1 (agetD (agetD g (agetD productCategoryMap p.group "Другое") [])
                  e.1 0 + e.2))) cat []
            = agetD g cat [] from by
          rw [agetD_ainsert, if_neg hcat]]
        simp only [List.mem_cons]
        constructor
        · rintro (h | ⟨q, hq, hp⟩)
          · exact Or.inl h
          · exact Or.inr ⟨q, Or.inr hq, hp⟩
        · rintro (h | ⟨q, (heq | hq), p2, hp2, hcat2⟩)
          · exact Or.inl h
          · have hne : name = e.1 := by
              have := congrArg Prod.fst heq
              simpa using this
            rw [hne, hl] at hp2
            cases hp2
            exact absurd hcat2 hcat
          · exact Or.inr ⟨q, hq, p2, hp2, hcat2⟩

end Ration

namespace Ration

/-- C4, counterexample: for the empty BOM (and empty registry) the grouping
returns the empty dict, so the known category "Крупы" is not among its keys
— the output does not enumerate every known category. -/
theorem group_by_category_empty_counterexample :
    "Крупы" ∈ productGroups
    ∧ group_products_by_category [] [] = []
    ∧ "Крупы" ∉ akeys (group_products_by_category [] []) := by
  refine ⟨by decide, rfl, by decide⟩

/-- C4 (amended): the mapping returned by `group_products_by_category`
contains exactly the categories to which at least one resolvable BOM entry's
product maps — a known category with no matching product is omitted rather
than present with an empty inner mapping (the display layer iterates
`productGroups` itself to render empty groups); every category key that is
present has a non-empty inner mapping. -/
theorem group_by_category_keys (bom : List (String × ℚ))
    (products : List (String × Product)) :
    (∀ cat, cat ∈ akeys (group_products_by_category bom products) ↔
        ∃ e ∈ bom, ∃ p, alookup products e.1 = some p ∧
          agetD productCategoryMap p.group "Другое" = cat)
    ∧ (∀ cat, cat ∈ akeys (group_products_by_category bom products) →
        agetD (group_products_by_category bom products) cat [] ≠ []) := by
  have hchar : ∀ cat, cat ∈ akeys (group_products_by_category bom products) ↔
      ∃ e ∈ bom, ∃ p, alookup products e.1 = some p ∧
        agetD productCategoryMap p.group "Другое" = cat := by
    intro cat
    unfold group_products_by_category
    rw [mem_akeys_groupStep_fold]
    simp [akeys]
  refine ⟨hchar, ?_⟩
  intro cat hmem hnil
  obtain ⟨e, he, p, hp, hcat⟩ := (hchar cat).mp hmem
  have hin : e.1 ∈ akeys (agetD (group_products_by_category bom products) cat []) := by
    unfold group_products_by_category
    rw [mem_inner_groupStep_fold]
    exact Or.inr ⟨e.2, he, p, hp, hcat⟩
  rw [hnil] at hin
  simp [akeys] at hin

/-- Witness for C4's amended theorem: one resolvable buckwheat entry puts —
and keeps — the "Крупы" category in the output with a non-empty group. -/
theorem group_by_category_keys_witness :
    ("Крупы" ∈ akeys (group_products_by_category [("гречка", (3:ℚ))]
        [("гречка", ⟨"гречка", 330, 12, 3, 62, .GRAINS, 1000, 0, 100⟩)]))
    ∧ agetD (group_products_by_category [("гречка", (3:ℚ))]
        [("гречка", ⟨"гречка", 330, 12, 3, 62, .GRAINS, 1000, 0, 100⟩)]) "Крупы" [] ≠ [] := by
  have hmem : "Крупы" ∈ akeys (group_products_by_category [("гречка", (3:ℚ))]
      [("гречка", ⟨"гречка", 330, 12, 3, 62, .GRAINS, 1000, 0, 100⟩)]) :=
    (group_by_category_keys _ _).1 "Крупы" |>.mpr
      ⟨("гречка", (3:ℚ)), by decide,
        ⟨"гречка", 330, 12, 3, 62, .GRAINS, 1000, 0, 100⟩, by decide, by decide⟩
  exact ⟨hmem, (group_by_category_keys _ _).2 "Крупы" hmem⟩

/-- C9: `group_products_by_category` is a total function that never raises;
a BOM entry whose product name is absent from the registry is silently
skipped and its name appears under no category of the output, while every
entry whose product is present appears under that product's resolved
category — an unresolvable product never prevents the grouping from being
produced. -/
theorem group_skips_unresolvable (bom : List (String × ℚ))
    (products : List (String × Product)) (name : String) :
    (alookup products name = none →
      ∀ cat, name ∉ akeys (agetD (group_products_by_category bom products) cat []))
    ∧ (∀ (q : ℚ) (p : Product), (name, q) ∈ bom → alookup products name = some p →
        name ∈ akeys (agetD (group_products_by_category bom products)
          (agetD productCategoryMap p.group "Другое") [])) := by
  constructor
  · intro hnone cat hmem
    unfold group_products_by_category at hmem
    rw [mem_inner_groupStep_fold] at hmem
    rcases hmem with h | ⟨q, hq, p, hp, -⟩
    · simp [agetD, akeys] at h
    · rw [hnone] at hp
      cases hp
  · intro q p hq hp
    unfold group_products_by_category
    rw [mem_inner_groupStep_fold]
    exact Or.inr ⟨q, hq, p, hp, rfl⟩

/-- Witness for C9: a BOM with a phantom entry and a buckwheat entry over a
registry that only knows buckwheat — the phantom is skipped everywhere, the
buckwheat lands under "Крупы". -/
theorem group_skips_unresolvable_witness :
    (alookup [("гречка", (⟨"гречка", 330, 12, 3, 62, .GRAINS, 1000, 0, 100⟩ : Product))]
        "призрак" = none
      ∧ ∀ cat, "призрак" ∉ akeys (agetD (group_products_by_category
          [("призрак", (5:ℚ)), ("гречка", (3:ℚ))]
          [("гречка", ⟨"гречка", 330, 12, 3, 62, .GRAINS, 1000, 0, 100⟩)]) cat []))
    ∧ ("гречка", (3:ℚ)) ∈ [("призрак", (5:ℚ)), ("гречка", (3:ℚ))]
    ∧ "гречка" ∈ akeys (agetD (group_products_by_category
        [("призрак", (5:ℚ)), ("гречка", (3:ℚ))]
        [("гречка", ⟨"гречка", 330, 12, 3, 62, .GRAINS, 1000, 0, 100⟩)]) "Крупы" []) := by
  refine ⟨⟨by decide, (group_skips_unresolvable _ _ "призрак").1 (by decide)⟩,
    by decide, ?_⟩
  exact (group_skips_unresolvable _ _ "гречка").2 3
    ⟨"гречка", 330, 12, 3, 62, .GRAINS, 1000, 0, 100⟩ (by decide) (by decide)

end Ration
